/-
Verification of the RaBit body-model deformation engine
(`src/retarget2raBit.py`, class `RaBitModel`).

The numerical code is embedded shallowly over `ℝ`: numpy float64 arrays
become functions out of `Fin`-indexed types, and the float operations are
idealised as exact real arithmetic.  The rig data loaded from `.npy` files
at construction time (template mesh, PCA basis, skinning weights, kinematic
table, joint clusters, reorder permutation) is not in the repository, so it
is modelled as an abstract `Rig` structure whose fields carry exactly the
shapes the code assumes (24 joints, 23 posed joints, V vertices, K shape
coefficients, parents topologically ordered as required by the `update`
loop).
-/
import Mathlib

noncomputable section

namespace RaBit

open Real Matrix Finset

/-- `np.finfo(np.float64).tiny`, the smallest positive normal float64,
`2 ^ (-1022)`.  Used by `rodrigues` to clamp the rotation angle away from
zero before dividing (`theta = np.maximum(theta, np.finfo(np.float64).tiny)`). -/
def tiny : ℝ := ((2 : ℝ) ^ 1022)⁻¹

/-- `np.linalg.norm` of one axis-angle row `r` of the `[batch, 1, 3]` input of
`rodrigues`: the Euclidean norm of the 3-vector. -/
def norm2 (r : Fin 3 → ℝ) : ℝ := Real.sqrt (r 0 ^ 2 + r 1 ^ 2 + r 2 ^ 2)

/-- The clamped angle `theta = np.maximum(np.linalg.norm(r), tiny)` of
`rodrigues` for one batch entry. -/
def rtheta (r : Fin 3 → ℝ) : ℝ := max (norm2 r) tiny

/-- `r_hat = r / theta` of `rodrigues` for one batch entry (elementwise
division by the clamped angle). -/
def rhat (r : Fin 3 → ℝ) (a : Fin 3) : ℝ := r a / rtheta r

/-- The matrix `m` of `rodrigues`: `np.dstack([z, -u2, u1, u2, z, -u0, -u1, u0,
z]).reshape([-1,3,3])` for one batch entry, i.e. the row-major 3×3 layout
`[[0, -u2, u1], [u2, 0, -u0], [-u1, u0, 0]]` of the components of `u`. -/
def m_mat (u : Fin 3 → ℝ) : Matrix (Fin 3) (Fin 3) ℝ :=
  Matrix.of ![![0, -u 2, u 1], ![u 2, 0, -u 0], ![-u 1, u 0, 0]]

/-- The matrix `dot = np.matmul(A, B)` of `rodrigues` where `A` is `r_hat`
viewed as a `3×1` column and `B` as a `1×3` row: entrywise
`dot[i][j] = u[i] * u[j]`. -/
def dotm (u : Fin 3 → ℝ) : Matrix (Fin 3) (Fin 3) ℝ :=
  Matrix.of fun i j => u i * u j

/-- `RaBitModel.rodrigues` for one batch entry: with `theta` the clamped norm
of `r` and `r_hat = r / theta`,
`R = cos(theta) * i_cube + (1 - cos(theta)) * dot + sin(theta) * m`. -/
def rodrigues (r : Fin 3 → ℝ) : Matrix (Fin 3) (Fin 3) ℝ :=
  Real.cos (rtheta r) • (1 : Matrix (Fin 3) (Fin 3) ℝ)
    + (1 - Real.cos (rtheta r)) • dotm (rhat r)
    + Real.sin (rtheta r) • m_mat (rhat r)

/-- `np.hstack([R, t])` for a 3×3 block and a 3×1 column, as used in
`update` to build the `[3,4]` matrices passed to `with_zeros`. -/
def hstack34 (R : Matrix (Fin 3) (Fin 3) ℝ) (t : Fin 3 → ℝ) :
    Matrix (Fin 3) (Fin 4) ℝ :=
  Matrix.of fun i => ![R i 0, R i 1, R i 2, t i]

/-- `RaBitModel.with_zeros`: `np.vstack((x, [[0.0, 0.0, 0.0, 1.0]]))`,
appending the row `[0,0,0,1]` to a `[3,4]` matrix. -/
def with_zeros (x : Matrix (Fin 3) (Fin 4) ℝ) : Matrix (Fin 4) (Fin 4) ℝ :=
  Matrix.of ![x 0, x 1, x 2, ![0, 0, 0, 1]]

/-- `RaBitModel.pack` for one batch entry:
`np.dstack((np.zeros((batch, 4, 3)), x))`, placing the `4×1` column `x` after
a `4×3` zero block, so entry `(i, j)` is `x i` when `j = 3` and `0` otherwise. -/
def pack (x : Fin 4 → ℝ) : Matrix (Fin 4) (Fin 4) ℝ :=
  Matrix.of fun i j => if j = 3 then x i else 0

/-- The static rig data `RaBitModel.__init__` loads from `rabit_data/shape/`,
with the array shapes the rest of the class assumes.  `shapedirs` is the
`(K, 3V)` PCA matrix `pcamat.npy` with its second axis reshaped to `V × 3`
(matching `v_shaped.reshape(-1, 3)`); `cluster i = none` models
`index2cluster[i] == 'RootNode'` and otherwise gives the (nonempty) vertex
index set `joint2index[index2cluster[i]]`; `parent` is `ktree_table`;
`parent_lt` is the topological-order property the `update` loop relies on
(`G[int(parent[i])]` must already be computed when `G[i]` is);
`reorder` is `reorder_index`. -/
structure Rig (V K : ℕ) where
  v_template : Fin V → Fin 3 → ℝ
  shapedirs : Fin K → Fin V → Fin 3 → ℝ
  weights : Fin V → Fin 24 → ℝ
  parent : Fin 24 → Fin 24
  parent_lt : ∀ i : Fin 24, i ≠ 0 → parent i < i
  cluster : Fin 24 → Option { s : Finset (Fin V) // s.Nonempty }
  reorder : Fin 24 → Fin 24

/-- Shape blending in `update`:
`v_shaped = self.shapedirs.T.dot(self.beta) + self.v_template.reshape(-1)`,
already reshaped back to `V × 3` (the code's `v_posed = v_shaped.reshape(-1, 3)`). -/
def v_shaped {V K : ℕ} (rig : Rig V K) (beta : Fin K → ℝ)
    (v : Fin V) (a : Fin 3) : ℝ :=
  (∑ k : Fin K, rig.shapedirs k v a * beta k) + rig.v_template v a

/-- The `pose_cube` of `update`: `np.zeros((24, 1, 3))` with
`pose_cube[1:, :, :] += self.pose.reshape((-1, 1, 3))`; row 0 (root) stays
the zero vector, row `1 + j` is row `j` of the stored 23×3 pose. -/
def pose_cube (pose : Fin 23 → Fin 3 → ℝ) : Fin 24 → Fin 3 → ℝ :=
  Fin.cases (fun _ => 0) pose

/-- `RaBitModel.joints_list`: for each joint index `i`, the zero row if
`index2cluster[i] == 'RootNode'`, otherwise `(maxval + minval) / 2` per axis
over the shaped vertices indexed by the joint's cluster. -/
def joints_list {V K : ℕ} (rig : Rig V K) (vp : Fin V → Fin 3 → ℝ)
    (i : Fin 24) (a : Fin 3) : ℝ :=
  match rig.cluster i with
  | none => 0
  | some s => (s.1.sup' s.2 (fun v => vp v a) + s.1.inf' s.2 (fun v => vp v a)) / 2

/-- The world-transform accumulation loop of `update`:
`G[0] = with_zeros(hstack((R[0], J[0])))` and, for `i > 0`,
`G[i] = G[parent[i]] @ with_zeros(hstack([R[i], J[i] - J[parent[i]]]))`.
The loop runs in increasing `i` and reads `G[parent[i]]`, which is
well-defined because `parent i < i` (`Rig.parent_lt`); the recursion here
terminates for the same reason. -/
def Gmat {V K : ℕ} (rig : Rig V K) (R : Fin 24 → Matrix (Fin 3) (Fin 3) ℝ)
    (J : Fin 24 → Fin 3 → ℝ) (i : Fin 24) : Matrix (Fin 4) (Fin 4) ℝ :=
  if h : i = 0 then with_zeros (hstack34 (R 0) (J 0))
  else
    Gmat rig R J (rig.parent i) *
      with_zeros (hstack34 (R i) (fun a => J i a - J (rig.parent i) a))
termination_by (i : ℕ)
decreasing_by exact rig.parent_lt i h

/-- The homogeneous joint vector `np.hstack([self.J, np.zeros([24, 1])])`
used in the rest-pose removal step: `(J i 0, J i 1, J i 2, 0)`. -/
def jhom (J : Fin 24 → Fin 3 → ℝ) (i : Fin 24) : Fin 4 → ℝ :=
  ![J i 0, J i 1, J i 2, 0]

/-- The rest-pose removal of `update`:
`G = G - self.pack(np.matmul(G, np.hstack([self.J, np.zeros([24,1])]).reshape([24,4,1])))`. -/
def Gfin {V K : ℕ} (rig : Rig V K) (R : Fin 24 → Matrix (Fin 3) (Fin 3) ℝ)
    (J : Fin 24 → Fin 3 → ℝ) (i : Fin 24) : Matrix (Fin 4) (Fin 4) ℝ :=
  Gmat rig R J i - pack ((Gmat rig R J i).mulVec (jhom J i))

/-- The per-vertex transform of `update`:
`T = np.tensordot(self.weights, G, axes=[[1], [0]])`, i.e.
`T[v] = Σ_j weights[v, j] * G[j]`. -/
def Tmat {V K : ℕ} (rig : Rig V K) (R : Fin 24 → Matrix (Fin 3) (Fin 3) ℝ)
    (J : Fin 24 → Fin 3 → ℝ) (v : Fin V) : Matrix (Fin 4) (Fin 4) ℝ :=
  ∑ j : Fin 24, rig.weights v j • Gfin rig R J j

/-- `rest_shape_h = np.hstack((self.v_posed, np.ones([...])))`: the
homogeneous coordinate `(x, y, z, 1)` of a rest vertex. -/
def rest_shape_h (p : Fin 3 → ℝ) : Fin 4 → ℝ := ![p 0, p 1, p 2, 1]

/-- The whole of `RaBitModel.update` as a function of the stored parameters:
shape blending, per-joint Rodrigues rotations of the zero-padded pose,
joint estimation, kinematic accumulation with rest-pose removal, linear
blend skinning (`v = np.matmul(T, rest_shape_h ...)[:, :3]`), and the final
global translation `self.verts = v + self.trans`. -/
def updateVerts {V K : ℕ} (rig : Rig V K) (pose : Fin 23 → Fin 3 → ℝ)
    (beta : Fin K → ℝ) (trans : Fin 3 → ℝ) (v : Fin V) (a : Fin 3) : ℝ :=
  (Tmat rig (fun i => rodrigues (pose_cube pose i))
      (joints_list rig (v_shaped rig beta)) v).mulVec
    (rest_shape_h (v_shaped rig beta v)) a.castSucc + trans a

/-- The mutable parameter state of a `RaBitModel` instance: the fields
`self.pose` (23×3, internal order), `self.beta`, `self.trans`, and the
cached output `self.verts`. -/
structure ModelState (V K : ℕ) where
  pose : Fin 23 → Fin 3 → ℝ
  beta : Fin K → ℝ
  trans : Fin 3 → ℝ
  verts : Fin V → Fin 3 → ℝ

/-- A call of `self.update()`: recomputes `self.verts` from the currently
stored parameters; nothing else changes. -/
def updateState {V K : ℕ} (rig : Rig V K) (st : ModelState V K) :
    ModelState V K :=
  { st with verts := updateVerts rig st.pose st.beta st.trans }

/-- `RaBitModel.set_params`: each supplied parameter is stored (the pose
after `pose = pose[self.reorder_index, :]; self.pose = pose[1:, :]`, i.e.
internal row `i` is external row `reorder_index[1 + i]`), then
`self.update()` runs. -/
def set_params {V K : ℕ} (rig : Rig V K) (st : ModelState V K)
    (pose : Option (Fin 24 → Fin 3 → ℝ)) (beta : Option (Fin K → ℝ))
    (trans : Option (Fin 3 → ℝ)) : ModelState V K :=
  updateState rig
    { st with
      pose := match pose with
        | none => st.pose
        | some p => fun i a => p (rig.reorder i.succ) a
      beta := match beta with
        | none => st.beta
        | some b => b
      trans := match trans with
        | none => st.trans
        | some t => t }

/-- The `smpl_params` dictionary consumed by `RaBitModel.load_smpl_params`:
`pose_params` (a 3-axis array whose first two axes get transposed),
`shape_params` (assigned into `beta[10:]` of a length-500 local), and
`trans`. -/
structure SmplParams where
  pose_params : ℕ → ℕ → Fin 3 → ℝ
  shape_params : Fin 490 → ℝ
  trans : Fin 3 → ℝ

/-- `RaBitModel.load_smpl_params`.  The method computes local values
`theta`, `beta` (from `np.random.rand`, modelled by the extra argument
`rand`, partially overwritten with `shape_params`) and `trans`, but stores
none of them on the model: it only calls `self.update()`, so the model state
changes exactly as a bare `update` does. -/
def load_smpl_params {V K : ℕ} (rig : Rig V K) (st : ModelState V K)
    (sp : SmplParams) (rand : Fin 500 → ℝ) : ModelState V K :=
  let theta : ℕ → ℕ → Fin 3 → ℝ := fun i j => sp.pose_params j i
  let beta : Fin 500 → ℝ := fun i =>
    if h : 10 ≤ (i : ℕ) then sp.shape_params ⟨(i : ℕ) - 10, by omega⟩
    else rand i * 10 - 5
  updateState rig st

/-- The tolerance used to state the "within floating tolerance" clauses of
the specification after idealising float64 as exact reals: `2 ^ (-2000)`,
far below any float64 rounding error yet far above the exact deviations
(of order `tiny ^ 2 = 2 ^ (-2044)`) introduced by the epsilon clamp. -/
def tol : ℝ := ((2 : ℝ) ^ 2000)⁻¹

/-- The spec's description of the Rodrigues formula (spec §4.4), written
independently of the source: with θ the Euclidean norm of `r` clamped below
by `tiny` and `r̂ = r / θ`,
`R = cos(θ)·I + (1 − cos(θ))·(r̂ r̂ᵗ) + sin(θ)·[r̂]×`,
where the outer product is `Matrix.vecMulVec` and `[r̂]×` is the matrix of
the cross-product map `x ↦ r̂ × x`. -/
def rodriguesSpec (r : Fin 3 → ℝ) : Matrix (Fin 3) (Fin 3) ℝ :=
  Real.cos (max (Real.sqrt (∑ a, r a ^ 2)) tiny) • (1 : Matrix (Fin 3) (Fin 3) ℝ)
    + (1 - Real.cos (max (Real.sqrt (∑ a, r a ^ 2)) tiny)) •
        Matrix.vecMulVec (fun a => r a / max (Real.sqrt (∑ b, r b ^ 2)) tiny)
          (fun a => r a / max (Real.sqrt (∑ b, r b ^ 2)) tiny)
    + Real.sin (max (Real.sqrt (∑ a, r a ^ 2)) tiny) •
        LinearMap.toMatrix'
          (crossProduct (fun a => r a / max (Real.sqrt (∑ b, r b ^ 2)) tiny))

/-- The spec's homogeneous local transform `[R | t; 0 0 0 1]` (spec §4.5),
written independently of the source's `with_zeros`/`hstack` construction. -/
def affineSpec (A : Matrix (Fin 3) (Fin 3) ℝ) (t : Fin 3 → ℝ) :
    Matrix (Fin 4) (Fin 4) ℝ :=
  Matrix.of
    ![![A 0 0, A 0 1, A 0 2, t 0],
      ![A 1 0, A 1 1, A 1 2, t 1],
      ![A 2 0, A 2 1, A 2 2, t 2],
      ![0, 0, 0, 1]]

/-- A homogeneous transform whose rotation block is the scalar matrix
`γ • I`.  Under the all-zero pose every joint rotation is
`cos(tiny) • I`, so every accumulated world transform has this shape. -/
def scalAff (γ : ℝ) (t : Fin 3 → ℝ) : Matrix (Fin 4) (Fin 4) ℝ :=
  affineSpec (γ • (1 : Matrix (Fin 3) (Fin 3) ℝ)) t

/-- A concrete one-vertex rig used to evaluate the engine on explicit
input: a single vertex at `(1, 0, 0)` fully skinned to the root joint,
every joint a root-type cluster, every non-root joint parented to joint 0. -/
def exRig : Rig 1 0 where
  v_template := fun _ => ![1, 0, 0]
  shapedirs := fun k => k.elim0
  weights := fun _ j => if j = 0 then 1 else 0
  parent := fun _ => 0
  parent_lt := by decide
  cluster := fun _ => none
  reorder := fun i => i

/-- A nonempty vertex cluster over a two-vertex mesh. -/
def exCluster : { s : Finset (Fin 2) // s.Nonempty } := ⟨{0, 1}, by decide⟩

/-- A concrete two-vertex rig whose joint 1 owns the cluster `{0, 1}`,
used to evaluate `joints_list` on explicit input. -/
def exRig2 : Rig 2 0 where
  v_template := fun v => ![(v : ℕ), 2, 0]
  shapedirs := fun k => k.elim0
  weights := fun _ j => if j = 0 then 1 else 0
  parent := fun _ => 0
  parent_lt := by decide
  cluster := fun i => if i = 0 then none else some exCluster
  reorder := fun i => i

/-- The dimensionality-sensitive slice of the parameter state, with the
`beta` and `trans` fields kept as raw lists so that ill-dimensioned caller
input is representable.  (`pose` is not modelled here: an ill-dimensioned
pose raises inside the indexing expression `pose[self.reorder_index, :]`
before any field is assigned, whereas `beta` and `trans` are stored
unconditionally by `set_params` before `update` runs.) -/
structure StateL where
  betaL : List ℝ
  transL : List ℝ

/-- The shape requirements `update` imposes on the stored parameters,
in the order its array expressions evaluate:
`self.shapedirs.T.dot(self.beta)` needs `len(beta) = K`, and the final
`self.trans.reshape([1, 3])` needs `len(trans) = 3`.  A violated
requirement raises a numpy error (there is no `PoseShapeError` class in
the source). -/
def updateCheckL (K : ℕ) (st : StateL) : Except String Unit :=
  if st.betaL.length ≠ K then Except.error "beta dimensionality"
  else if st.transL.length ≠ 3 then Except.error "trans dimensionality"
  else Except.ok ()

/-- `RaBitModel.set_params` on the list-level state: exactly as in the
source, the supplied parameters are assigned to the fields first and
`self.update()` only runs (and possibly fails) afterwards. -/
def set_paramsL (K : ℕ) (st : StateL) (beta : Option (List ℝ))
    (trans : Option (List ℝ)) : StateL × Except String Unit :=
  let st1 : StateL :=
    { betaL := beta.getD st.betaL, transL := trans.getD st.transL }
  (st1, updateCheckL K st1)

/-! ### Basic facts about the clamp and the normalised axis -/

lemma tiny_pos : 0 < tiny := by rw [tiny]; positivity

lemma tiny_le_one : tiny ≤ 1 := by
  rw [tiny]
  rw [inv_le_one_iff₀]
  right
  exact one_le_pow₀ (by norm_num)

lemma norm2_nonneg (r : Fin 3 → ℝ) : 0 ≤ norm2 r := Real.sqrt_nonneg _

lemma rtheta_pos (r : Fin 3 → ℝ) : 0 < rtheta r :=
  lt_max_of_lt_right tiny_pos

lemma norm2_le_rtheta (r : Fin 3 → ℝ) : norm2 r ≤ rtheta r := le_max_left _ _

lemma sq_norm2 (r : Fin 3 → ℝ) : norm2 r ^ 2 = r 0 ^ 2 + r 1 ^ 2 + r 2 ^ 2 :=
  Real.sq_sqrt (by positivity)

lemma abs_le_norm2 (r : Fin 3 → ℝ) (a : Fin 3) : |r a| ≤ norm2 r := by
  have h1 : r a ^ 2 ≤ r 0 ^ 2 + r 1 ^ 2 + r 2 ^ 2 := by
    fin_cases a
    · show r 0 ^ 2 ≤ _
      nlinarith [sq_nonneg (r 1), sq_nonneg (r 2)]
    · show r 1 ^ 2 ≤ _
      nlinarith [sq_nonneg (r 0), sq_nonneg (r 2)]
    · show r 2 ^ 2 ≤ _
      nlinarith [sq_nonneg (r 0), sq_nonneg (r 1)]
  calc |r a| = Real.sqrt (r a ^ 2) := (Real.sqrt_sq_eq_abs _).symm
    _ ≤ norm2 r := Real.sqrt_le_sqrt h1

lemma abs_rhat_le_one (r : Fin 3 → ℝ) (a : Fin 3) : |rhat r a| ≤ 1 := by
  rw [rhat, abs_div, abs_of_pos (rtheta_pos r)]
  rw [div_le_one (rtheta_pos r)]
  exact (abs_le_norm2 r a).trans (norm2_le_rtheta r)

lemma rhat_sq_le_one (r : Fin 3 → ℝ) :
    rhat r 0 ^ 2 + rhat r 1 ^ 2 + rhat r 2 ^ 2 ≤ 1 := by
  have hθ := rtheta_pos r
  have h : rhat r 0 ^ 2 + rhat r 1 ^ 2 + rhat r 2 ^ 2
      = (r 0 ^ 2 + r 1 ^ 2 + r 2 ^ 2) / rtheta r ^ 2 := by
    rw [rhat, rhat, rhat]
    field_simp
  rw [h, div_le_one (by positivity)]
  rw [← sq_norm2]
  exact pow_le_pow_left₀ (norm2_nonneg r) (norm2_le_rtheta r) 2

lemma rhat_sq_eq_one (r : Fin 3 → ℝ) (h : tiny ≤ norm2 r) :
    rhat r 0 ^ 2 + rhat r 1 ^ 2 + rhat r 2 ^ 2 = 1 := by
  have hθ : rtheta r = norm2 r := max_eq_left h
  have hn : (0 : ℝ) < norm2 r := lt_of_lt_of_le tiny_pos h
  have hs := sq_norm2 r
  rw [rhat, rhat, rhat, hθ]
  field_simp
  linarith

/-! ### Structure of the Rodrigues matrix -/

/-- The product `R Rᵗ` for a matrix of the Rodrigues shape, as a polynomial
identity in the cosine, sine and axis components (no constraint relating
them is needed). -/
lemma rot_mul_transpose (c s : ℝ) (u : Fin 3 → ℝ) :
    (c • (1 : Matrix (Fin 3) (Fin 3) ℝ) + (1 - c) • dotm u + s • m_mat u)
      * (c • (1 : Matrix (Fin 3) (Fin 3) ℝ) + (1 - c) • dotm u + s • m_mat u)ᵀ
      = (c ^ 2 + s ^ 2 * (u 0 ^ 2 + u 1 ^ 2 + u 2 ^ 2))
          • (1 : Matrix (Fin 3) (Fin 3) ℝ)
        + (2 * c * (1 - c) + (1 - c) ^ 2 * (u 0 ^ 2 + u 1 ^ 2 + u 2 ^ 2) - s ^ 2)
          • dotm u := by
  ext i j
  rw [Matrix.mul_apply, Fin.sum_univ_three]
  fin_cases i <;> fin_cases j <;>
    simp [m_mat, dotm, Matrix.one_apply] <;> ring

/-- The determinant of a matrix of the Rodrigues shape, as a polynomial
identity. -/
lemma rot_det (c s : ℝ) (u : Fin 3 → ℝ) :
    (c • (1 : Matrix (Fin 3) (Fin 3) ℝ) + (1 - c) • dotm u + s • m_mat u).det
      = (c + (1 - c) * (u 0 ^ 2 + u 1 ^ 2 + u 2 ^ 2))
        * (c ^ 2 + s ^ 2 * (u 0 ^ 2 + u 1 ^ 2 + u 2 ^ 2)) := by
  rw [Matrix.det_fin_three]
  simp [m_mat, dotm, Matrix.one_apply]
  ring

lemma rodrigues_mul_transpose (r : Fin 3 → ℝ) :
    rodrigues r * (rodrigues r)ᵀ
      = (Real.cos (rtheta r) ^ 2
          + Real.sin (rtheta r) ^ 2
            * (rhat r 0 ^ 2 + rhat r 1 ^ 2 + rhat r 2 ^ 2))
          • (1 : Matrix (Fin 3) (Fin 3) ℝ)
        + (2 * Real.cos (rtheta r) * (1 - Real.cos (rtheta r))
            + (1 - Real.cos (rtheta r)) ^ 2
              * (rhat r 0 ^ 2 + rhat r 1 ^ 2 + rhat r 2 ^ 2)
            - Real.sin (rtheta r) ^ 2) • dotm (rhat r) :=
  rot_mul_transpose _ _ _

lemma rodrigues_det_eq (r : Fin 3 → ℝ) :
    (rodrigues r).det
      = (Real.cos (rtheta r)
          + (1 - Real.cos (rtheta r))
            * (rhat r 0 ^ 2 + rhat r 1 ^ 2 + rhat r 2 ^ 2))
        * (Real.cos (rtheta r) ^ 2
            + Real.sin (rtheta r) ^ 2
              * (rhat r 0 ^ 2 + rhat r 1 ^ 2 + rhat r 2 ^ 2)) :=
  rot_det _ _ _

lemma dotm_eq_vecMulVec (u : Fin 3 → ℝ) : dotm u = Matrix.vecMulVec u u := by
  ext i j
  rw [Matrix.vecMulVec_apply]
  rfl

lemma m_mat_eq_cross (u : Fin 3 → ℝ) :
    m_mat u = LinearMap.toMatrix' (crossProduct u) := by
  ext i j
  rw [LinearMap.toMatrix'_apply, cross_apply]
  fin_cases i <;> fin_cases j <;> simp [m_mat]

/-- **C2** (confirmed).  For every axis-angle 3-vector `r`, `rodrigues`
returns exactly the matrix the spec describes:
`cos(θ)·I + (1 − cos(θ))·(r̂ r̂ᵗ) + sin(θ)·[r̂]×`, where θ is the Euclidean
norm of `r` clamped below by the tiny positive epsilon, `r̂ = r / θ`, and
`[r̂]×` is the skew-symmetric cross-product matrix of `r̂`. -/
theorem rodrigues_eq_rodriguesSpec (r : Fin 3 → ℝ) :
    rodrigues r = rodriguesSpec r := by
  have hθ : rtheta r = max (Real.sqrt (∑ a, r a ^ 2)) tiny := by
    rw [rtheta, norm2, Fin.sum_univ_three]
  have hu : rhat r = fun a => r a / max (Real.sqrt (∑ b, r b ^ 2)) tiny := by
    funext a
    rw [rhat, hθ]
  rw [rodriguesSpec, ← hθ]
  rw [show (fun a => r a / rtheta r) = rhat r from rfl]
  rw [← dotm_eq_vecMulVec, ← m_mat_eq_cross]
  rfl

/-! ### The zero rotation vector -/

lemma rodrigues_eq_of_zero (r : Fin 3 → ℝ) (h : ∀ a, r a = 0) :
    rodrigues r = Real.cos tiny • (1 : Matrix (Fin 3) (Fin 3) ℝ) := by
  have hn : norm2 r = 0 := by simp [norm2, h]
  have hθ : rtheta r = tiny := by rw [rtheta, hn]; exact max_eq_right tiny_pos.le
  have hu : ∀ a, rhat r a = 0 := fun a => by simp [rhat, h]
  have h1 : dotm (rhat r) = 0 := by
    ext i j
    simp [dotm, hu]
  have h2 : m_mat (rhat r) = 0 := by
    ext i j
    fin_cases i <;> fin_cases j <;>
      simp [m_mat, hu, Matrix.vecHead, Matrix.vecTail]
  rw [rodrigues, hθ, h1, h2, smul_zero, smul_zero, add_zero, add_zero]

lemma one_sub_cos_tiny_le : 1 - Real.cos tiny ≤ tiny ^ 2 / 2 := by
  have := Real.one_sub_sq_div_two_le_cos (x := tiny)
  linarith

lemma cos_tiny_lt_one : Real.cos tiny < 1 := by
  have h := Real.cos_lt_cos_of_nonneg_of_le_pi (x := 0) (y := tiny) le_rfl
    (tiny_le_one.trans (by linarith [Real.pi_gt_three])) tiny_pos
  simpa using h

lemma cos_tiny_pos : 0 < Real.cos tiny :=
  Real.cos_pos_of_mem_Ioo
    ⟨by linarith [tiny_pos, Real.pi_gt_three],
     by linarith [tiny_le_one, Real.pi_gt_three]⟩

lemma tol_pos : 0 < tol := by rw [tol]; positivity

lemma tiny_sq_half_le_tol : tiny ^ 2 / 2 ≤ tol := by
  rw [tiny, tol]
  norm_num

lemma two_tiny_sq_le_tol : 2 * tiny ^ 2 ≤ tol := by
  rw [tiny, tol]
  norm_num

/-- **C10** (confirmed).  `rodrigues` applied to the zero vector is
well-defined (the clamped angle is positive, so no division by zero
occurs): it returns exactly `cos(tiny) • I`, which is the identity matrix
within tolerance. -/
theorem rodrigues_zero_identity :
    0 < rtheta ![0, 0, 0]
    ∧ rodrigues ![0, 0, 0] = Real.cos tiny • (1 : Matrix (Fin 3) (Fin 3) ℝ)
    ∧ ∀ i j, |rodrigues ![0, 0, 0] i j - (1 : Matrix (Fin 3) (Fin 3) ℝ) i j|
        ≤ tol := by
  have h0 : ∀ a, (![0, 0, 0] : Fin 3 → ℝ) a = 0 := by
    intro a
    fin_cases a <;> rfl
  have heq := rodrigues_eq_of_zero ![0, 0, 0] h0
  refine ⟨rtheta_pos _, heq, ?_⟩
  intro i j
  rw [heq, Matrix.smul_apply]
  rcases eq_or_ne i j with h | h
  · rw [h, Matrix.one_apply_eq, smul_eq_mul, mul_one]
    rw [abs_of_nonpos (by linarith [cos_tiny_lt_one])]
    have := one_sub_cos_tiny_le
    have := tiny_sq_half_le_tol
    linarith
  · rw [Matrix.one_apply_ne h, smul_eq_mul, mul_zero, sub_zero, abs_zero]
    exact tol_pos.le

/-! ### Orthonormality of the Rodrigues matrix -/

lemma abs_dotm_rhat_le_one (r : Fin 3 → ℝ) (i j : Fin 3) :
    |dotm (rhat r) i j| ≤ 1 := by
  show |rhat r i * rhat r j| ≤ 1
  rw [abs_mul]
  exact mul_le_one₀ (abs_rhat_le_one r i) (abs_nonneg _) (abs_rhat_le_one r j)

lemma tiny_sq_le_tiny : tiny ^ 2 ≤ tiny := by
  nlinarith [tiny_pos.le, tiny_le_one]

/-- Scalar estimates behind the tolerance half of the orthonormality claim:
when the clamp is active, the coefficients of the `R Rᵗ` and `det`
formulas deviate from `1` and `0` by at most `2 · tiny²`. -/
lemma entry_bound_aux (c s A d : ℝ) (hsc : s ^ 2 + c ^ 2 = 1)
    (hA0 : 0 ≤ A) (hA1 : A ≤ 1) (hs0 : 0 ≤ s) (hst : s ≤ tiny)
    (hc1 : c ≤ 1) (hc0 : 1 - tiny ^ 2 / 2 ≤ c) (hd : |d| ≤ 1) :
    |(c ^ 2 + s ^ 2 * A) * 1
        + (2 * c * (1 - c) + (1 - c) ^ 2 * A - s ^ 2) * d - 1| ≤ tol
    ∧ |(2 * c * (1 - c) + (1 - c) ^ 2 * A - s ^ 2) * d| ≤ tol
    ∧ |(c + (1 - c) * A) * (c ^ 2 + s ^ 2 * A) - 1| ≤ tol := by
  have hs2 : s ^ 2 ≤ tiny ^ 2 := pow_le_pow_left₀ hs0 hst 2
  have h1c : 0 ≤ 1 - c := by linarith
  have h1ct : 1 - c ≤ tiny := by linarith [tiny_sq_le_tiny, tiny_pos.le]
  have hc2 : (1 - c) ^ 2 ≤ tiny ^ 2 := pow_le_pow_left₀ h1c h1ct 2
  have hAd : |A - 1| ≤ 1 := abs_le.mpr ⟨by linarith, by linarith⟩
  have b2 : |(1 - c) ^ 2 * (A - 1) * d| ≤ tiny ^ 2 := by
    calc |(1 - c) ^ 2 * (A - 1) * d| = (1 - c) ^ 2 * |A - 1| * |d| := by
          rw [abs_mul, abs_mul, abs_of_nonneg (sq_nonneg _)]
      _ ≤ tiny ^ 2 * 1 * 1 := by
          apply mul_le_mul _ hd (abs_nonneg _) (by positivity)
          exact mul_le_mul hc2 hAd (abs_nonneg _) (by positivity)
      _ = tiny ^ 2 := by ring
  have b1 : |s ^ 2 * (A - 1)| ≤ tiny ^ 2 := by
    calc |s ^ 2 * (A - 1)| = s ^ 2 * |A - 1| := by
          rw [abs_mul, abs_of_nonneg (sq_nonneg s)]
      _ ≤ tiny ^ 2 * 1 := mul_le_mul hs2 hAd (abs_nonneg _) (by positivity)
      _ = tiny ^ 2 := mul_one _
  refine ⟨?_, ?_, ?_⟩
  · have e : (c ^ 2 + s ^ 2 * A) * 1
        + (2 * c * (1 - c) + (1 - c) ^ 2 * A - s ^ 2) * d - 1
        = s ^ 2 * (A - 1) + (1 - c) ^ 2 * (A - 1) * d := by
      linear_combination (1 - d) * hsc
    rw [e]
    calc |s ^ 2 * (A - 1) + (1 - c) ^ 2 * (A - 1) * d|
        ≤ |s ^ 2 * (A - 1)| + |(1 - c) ^ 2 * (A - 1) * d| := abs_add _ _
      _ ≤ tol := by linarith [two_tiny_sq_le_tol]
  · have e : (2 * c * (1 - c) + (1 - c) ^ 2 * A - s ^ 2) * d
        = (1 - c) ^ 2 * (A - 1) * d := by
      linear_combination d * (-hsc)
    rw [e]
    linarith [two_tiny_sq_le_tol, sq_nonneg tiny, tiny_pos]
  · have hx1 : c + (1 - c) * A ≤ 1 := by nlinarith
    have hx0 : 1 - tiny ^ 2 / 2 ≤ c + (1 - c) * A := by nlinarith
    have hy1 : c ^ 2 + s ^ 2 * A ≤ 1 := by nlinarith
    have hy0 : 1 - tiny ^ 2 ≤ c ^ 2 + s ^ 2 * A := by nlinarith [sq_nonneg s]
    have habs : |(c + (1 - c) * A) * (c ^ 2 + s ^ 2 * A) - 1| ≤ 2 * tiny ^ 2 := by
      rw [abs_le]
      constructor
      · nlinarith [tiny_sq_le_tiny, tiny_pos.le, tiny_le_one]
      · nlinarith [tiny_sq_le_tiny, tiny_pos.le, tiny_le_one]
    exact habs.trans two_tiny_sq_le_tol

/-- **C9** (confirmed, stating the floating tolerance explicitly).  For
every axis-angle 3-vector `r`, the matrix returned by `rodrigues` satisfies
`R·Rᵗ = I` and `det R = 1` within the tolerance `tol`; and whenever the
epsilon clamp is inactive (`tiny ≤ ‖r‖`, i.e. for every rotation vector
that is not subnormally small) both identities hold exactly. -/
theorem rodrigues_orthonormal (r : Fin 3 → ℝ) :
    (∀ i j, |(rodrigues r * (rodrigues r)ᵀ) i j
        - (1 : Matrix (Fin 3) (Fin 3) ℝ) i j| ≤ tol)
    ∧ |(rodrigues r).det - 1| ≤ tol
    ∧ (tiny ≤ norm2 r →
        rodrigues r * (rodrigues r)ᵀ = 1 ∧ (rodrigues r).det = 1) := by
  have hsc : Real.sin (rtheta r) ^ 2 + Real.cos (rtheta r) ^ 2 = 1 :=
    Real.sin_sq_add_cos_sq _
  have hA0 : (0 : ℝ) ≤ rhat r 0 ^ 2 + rhat r 1 ^ 2 + rhat r 2 ^ 2 := by positivity
  have hA1 := rhat_sq_le_one r
  have hexact : tiny ≤ norm2 r →
      rodrigues r * (rodrigues r)ᵀ = 1 ∧ (rodrigues r).det = 1 := by
    intro hcl
    have hA := rhat_sq_eq_one r hcl
    constructor
    · rw [rodrigues_mul_transpose, hA]
      have e1 : Real.cos (rtheta r) ^ 2 + Real.sin (rtheta r) ^ 2 * 1 = 1 := by
        linarith
      have e2 : 2 * Real.cos (rtheta r) * (1 - Real.cos (rtheta r))
          + (1 - Real.cos (rtheta r)) ^ 2 * 1 - Real.sin (rtheta r) ^ 2 = 0 := by
        linear_combination -hsc
      rw [e1, e2, one_smul, zero_smul, add_zero]
    · rw [rodrigues_det_eq, hA]
      linear_combination hsc
  by_cases hcl : tiny ≤ norm2 r
  · refine ⟨?_, ?_, hexact⟩
    · intro i j
      rw [(hexact hcl).1, sub_self, abs_zero]
      exact tol_pos.le
    · rw [(hexact hcl).2, sub_self, abs_zero]
      exact tol_pos.le
  · push_neg at hcl
    have hθ : rtheta r = tiny := max_eq_right hcl.le
    have hs0 : 0 ≤ Real.sin (rtheta r) := by
      rw [hθ]
      exact Real.sin_nonneg_of_nonneg_of_le_pi tiny_pos.le
        (tiny_le_one.trans (by linarith [Real.pi_gt_three]))
    have hst : Real.sin (rtheta r) ≤ tiny := by
      rw [hθ]
      exact (Real.sin_lt tiny_pos).le
    have hc1 : Real.cos (rtheta r) ≤ 1 := Real.cos_le_one _
    have hc0 : 1 - tiny ^ 2 / 2 ≤ Real.cos (rtheta r) := by
      rw [hθ]
      linarith [one_sub_cos_tiny_le]
    refine ⟨?_, ?_, hexact⟩
    · intro i j
      rw [rodrigues_mul_transpose, Matrix.add_apply, Matrix.smul_apply,
        Matrix.smul_apply, smul_eq_mul, smul_eq_mul]
      rcases eq_or_ne i j with h | h
      · rw [h, Matrix.one_apply_eq]
        exact (entry_bound_aux _ _ _ _ hsc hA0 hA1 hs0 hst hc1 hc0
          (abs_dotm_rhat_le_one r j j)).1
      · rw [Matrix.one_apply_ne h, mul_zero, zero_add, sub_zero]
        exact (entry_bound_aux _ _ _ _ hsc hA0 hA1 hs0 hst hc1 hc0
          (abs_dotm_rhat_le_one r i j)).2.1
    · rw [rodrigues_det_eq]
      exact (entry_bound_aux _ _ _ 1 hsc hA0 hA1 hs0 hst hc1 hc0
        (by norm_num)).2.2

/-- Witness for `rodrigues_orthonormal`: the exact-orthonormality branch
evaluated at the concrete rotation vector `(3, 0, 0)`, whose norm exceeds
the clamp. -/
theorem rodrigues_orthonormal_witness :
    tiny ≤ norm2 ![3, 0, 0]
    ∧ (rodrigues ![3, 0, 0] * (rodrigues ![3, 0, 0])ᵀ = 1
        ∧ (rodrigues ![3, 0, 0]).det = 1) := by
  have hn : norm2 ![3, 0, 0] = 3 := by
    rw [norm2]
    rw [show ((![3, 0, 0] : Fin 3 → ℝ) 0 ^ 2 + (![3, 0, 0] : Fin 3 → ℝ) 1 ^ 2
        + (![3, 0, 0] : Fin 3 → ℝ) 2 ^ 2) = 3 ^ 2 by norm_num]
    exact Real.sqrt_sq (by norm_num)
  have h : tiny ≤ norm2 ![3, 0, 0] := by
    rw [hn]
    linarith [tiny_le_one]
  exact ⟨h, (rodrigues_orthonormal ![3, 0, 0]).2.2 h⟩

/-! ### The kinematic accumulation and skinning steps -/

lemma with_zeros_hstack (A : Matrix (Fin 3) (Fin 3) ℝ) (t : Fin 3 → ℝ) :
    with_zeros (hstack34 A t) = affineSpec A t := by
  ext i j
  fin_cases i <;> fin_cases j <;> rfl

lemma pack_eq_updateColumn (x : Fin 4 → ℝ) :
    pack x = Matrix.updateColumn (0 : Matrix (Fin 4) (Fin 4) ℝ) 3 x := by
  ext i j
  rw [Matrix.updateColumn_apply]
  by_cases h : j = 3 <;> simp [pack, h]

/-- **C3** (confirmed).  The world transform of the root joint is
`G[0] = [R[0] | J[0]; 0 0 0 1]`; for every joint `i > 0` (processed in
increasing order, the parent having a smaller index),
`G[i] = G[parent(i)] · [R[i] | J[i] − J[parent(i)]; 0 0 0 1]`; and the
rest-pose removal replaces every `G[i]` by
`G[i] − pack(G[i] · [J[i]; 0])`, where `pack` places a 4×1 vector in the
last column of an otherwise-zero 4×4 matrix. -/
theorem Gmat_recurrence {V K : ℕ} (rig : Rig V K)
    (R : Fin 24 → Matrix (Fin 3) (Fin 3) ℝ) (J : Fin 24 → Fin 3 → ℝ)
    (i : Fin 24) :
    Gmat rig R J 0 = affineSpec (R 0) (J 0)
    ∧ (i ≠ 0 → Gmat rig R J i
        = Gmat rig R J (rig.parent i)
          * affineSpec (R i) (fun a => J i a - J (rig.parent i) a))
    ∧ Gfin rig R J i
        = Gmat rig R J i
          - Matrix.updateColumn (0 : Matrix (Fin 4) (Fin 4) ℝ) 3
              ((Gmat rig R J i).mulVec ![J i 0, J i 1, J i 2, 0]) := by
  refine ⟨?_, ?_, ?_⟩
  · rw [Gmat]
    simp [with_zeros_hstack]
  · intro h
    conv_lhs => rw [Gmat]
    rw [dif_neg h, with_zeros_hstack]
  · rw [Gfin, pack_eq_updateColumn]
    rfl

/-- Witness for `Gmat_recurrence`: the recurrence evaluated at joint `1` of
the concrete rig `exRig` with identity rotations and zero joints. -/
theorem Gmat_recurrence_witness :
    ((1 : Fin 24) ≠ 0)
    ∧ Gmat exRig (fun _ => 1) (fun _ _ => 0) 1
        = Gmat exRig (fun _ => 1) (fun _ _ => 0) (exRig.parent 1)
          * affineSpec ((fun _ => (1 : Matrix (Fin 3) (Fin 3) ℝ)) 1)
              (fun a => (fun _ _ => (0 : ℝ)) 1 a - (fun _ _ => (0 : ℝ)) (exRig.parent 1) a) :=
  ⟨by decide,
    (Gmat_recurrence exRig (fun _ => 1) (fun _ _ => 0) 1).2.1 (by decide)⟩

lemma sum_smul_mulVec (w : Fin 24 → ℝ) (M : Fin 24 → Matrix (Fin 4) (Fin 4) ℝ)
    (x : Fin 4 → ℝ) (k : Fin 4) :
    (∑ j, w j • M j).mulVec x k = ∑ j, w j * (M j).mulVec x k := by
  simp only [Matrix.mulVec, dotProduct, Matrix.sum_apply, Matrix.smul_apply,
    smul_eq_mul, Finset.sum_mul, Finset.mul_sum, mul_assoc]
  rw [Finset.sum_comm]

/-- **C4** (confirmed).  Every output vertex is obtained by blending the
(unrenormalised) per-joint world transforms with the vertex's skinning
weights, applying the blend to the homogeneous rest coordinate, taking the
first three components, and adding the global translation afterwards. -/
theorem updateVerts_linear_blend {V K : ℕ} (rig : Rig V K)
    (pose : Fin 23 → Fin 3 → ℝ) (beta : Fin K → ℝ) (trans : Fin 3 → ℝ)
    (v : Fin V) (a : Fin 3) :
    updateVerts rig pose beta trans v a
      = (∑ j : Fin 24, rig.weights v j *
          (Gfin rig (fun i => rodrigues (pose_cube pose i))
              (joints_list rig (v_shaped rig beta)) j).mulVec
            (rest_shape_h (v_shaped rig beta v)) a.castSucc)
        + trans a := by
  rw [updateVerts, Tmat, sum_smul_mulVec]

/-- **C5** (confirmed).  `joints_list` returns, for every joint whose
cluster is the root marker, the zero vector, and for every other joint the
per-axis midpoint `(max + min) / 2` of the shaped vertices indexed by the
joint's cluster (the bounding-box midpoint: the greatest and least attained
coordinate values, not a centroid); output is indexed by joint. -/
theorem joints_list_spec {V K : ℕ} (rig : Rig V K) (vp : Fin V → Fin 3 → ℝ)
    (i : Fin 24) (a : Fin 3) :
    (rig.cluster i = none → joints_list rig vp i a = 0)
    ∧ ∀ s : { s : Finset (Fin V) // s.Nonempty }, rig.cluster i = some s →
        ∃ M m : ℝ, IsGreatest ((fun v => vp v a) '' ↑s.1) M
          ∧ IsLeast ((fun v => vp v a) '' ↑s.1) m
          ∧ joints_list rig vp i a = (M + m) / 2 := by
  constructor
  · intro h
    rw [joints_list, h]
  · intro s hs
    refine ⟨s.1.sup' s.2 (fun v => vp v a), s.1.inf' s.2 (fun v => vp v a),
      ?_, ?_, ?_⟩
    · constructor
      · obtain ⟨b, hb, hb2⟩ := Finset.exists_mem_eq_sup' s.2 (fun v => vp v a)
        exact ⟨b, hb, hb2.symm⟩
      · rintro x ⟨w, hw, rfl⟩
        exact Finset.le_sup' (fun v => vp v a) hw
    · constructor
      · obtain ⟨b, hb, hb2⟩ := Finset.exists_mem_eq_inf' s.2 (fun v => vp v a)
        exact ⟨b, hb, hb2.symm⟩
      · rintro x ⟨w, hw, rfl⟩
        exact Finset.inf'_le (fun v => vp v a) hw
    · rw [joints_list, hs]

/-- Witness for `joints_list_spec`: joint `1` of the concrete rig `exRig2`
owns the cluster `{0, 1}`. -/
theorem joints_list_spec_witness :
    exRig2.cluster 1 = some exCluster
    ∧ ∃ M m : ℝ,
        IsGreatest ((fun v => exRig2.v_template v 0) '' ↑exCluster.1) M
        ∧ IsLeast ((fun v => exRig2.v_template v 0) '' ↑exCluster.1) m
        ∧ joints_list exRig2 exRig2.v_template 1 0 = (M + m) / 2 :=
  ⟨by decide,
    (joints_list_spec exRig2 exRig2.v_template 1 0).2 exCluster (by decide)⟩

/-- **C6** (confirmed).  `set_params` stores, as the internal pose, the
externally ordered 24×3 pose with its rows permuted by the reorder table
and the first (root) row dropped — internal row `i` is external row
`reorder_index[1 + i]` — and `update` always uses the zero vector as the
root joint's local rotation vector (row 0 of `pose_cube` is never taken
from the supplied pose). -/
theorem set_params_pose_reorder {V K : ℕ} (rig : Rig V K)
    (st : ModelState V K) (p : Fin 24 → Fin 3 → ℝ)
    (b : Option (Fin K → ℝ)) (t : Option (Fin 3 → ℝ)) :
    (∀ (i : Fin 23) (a : Fin 3),
        (set_params rig st (some p) b t).pose i a = p (rig.reorder i.succ) a)
    ∧ ∀ (pose : Fin 23 → Fin 3 → ℝ) (a : Fin 3), pose_cube pose 0 a = 0 := by
  constructor
  · intro i a
    rfl
  · intro pose a
    rfl

/-- **C8** (confirmed).  `load_smpl_params` leaves the stored `pose`,
`beta` and `trans` fields untouched for every argument (its `theta`,
`beta`, `trans` computations are dead locals), so the `update()` it
triggers recomputes `verts` from the parameters the model held before the
call. -/
theorem load_smpl_params_frame {V K : ℕ} (rig : Rig V K)
    (st : ModelState V K) (sp : SmplParams) (rand : Fin 500 → ℝ) :
    (load_smpl_params rig st sp rand).pose = st.pose
    ∧ (load_smpl_params rig st sp rand).beta = st.beta
    ∧ (load_smpl_params rig st sp rand).trans = st.trans
    ∧ (load_smpl_params rig st sp rand).verts
        = updateVerts rig st.pose st.beta st.trans :=
  ⟨rfl, rfl, rfl, rfl⟩

/-! ### The all-zero pose state -/

lemma v_shaped_zero {V K : ℕ} (rig : Rig V K) :
    v_shaped rig (fun _ => 0) = rig.v_template := by
  funext v a
  simp [v_shaped]

lemma pose_cube_zero (i : Fin 24) :
    pose_cube (fun _ _ => (0 : ℝ)) i = fun _ => 0 := by
  induction i using Fin.cases <;> simp [pose_cube]

lemma rodrigues_zero_pose :
    (fun i => rodrigues (pose_cube (fun _ _ => (0 : ℝ)) i))
      = fun _ : Fin 24 => Real.cos tiny • (1 : Matrix (Fin 3) (Fin 3) ℝ) := by
  funext i
  exact rodrigues_eq_of_zero _ (fun a => congrFun (pose_cube_zero i) a)

lemma joints_list_abs_le {V K : ℕ} (rig : Rig V K) (vp : Fin V → Fin 3 → ℝ)
    (B : ℝ) (hB : 0 ≤ B) (h : ∀ v a, |vp v a| ≤ B) (i : Fin 24) (a : Fin 3) :
    |joints_list rig vp i a| ≤ B := by
  rcases hc : rig.cluster i with _ | s
  · simp [joints_list, hc, hB]
  · obtain ⟨b, hb⟩ := s.2
    have hsup1 : s.1.sup' s.2 (fun v => vp v a) ≤ B :=
      Finset.sup'_le _ _ fun v _ => (abs_le.mp (h v a)).2
    have hsup2 : -B ≤ s.1.sup' s.2 (fun v => vp v a) :=
      le_trans (abs_le.mp (h b a)).1 (Finset.le_sup' (fun v => vp v a) hb)
    have hinf1 : s.1.inf' s.2 (fun v => vp v a) ≤ B :=
      le_trans (Finset.inf'_le (fun v => vp v a) hb) (abs_le.mp (h b a)).2
    have hinf2 : -B ≤ s.1.inf' s.2 (fun v => vp v a) :=
      Finset.le_inf' _ _ fun v _ => (abs_le.mp (h v a)).1
    simp only [joints_list, hc]
    rw [abs_le]
    constructor <;> [linarith; linarith]

lemma scalAff_mul (γ δ : ℝ) (t u : Fin 3 → ℝ) :
    scalAff γ t * scalAff δ u = scalAff (γ * δ) (fun a => γ * u a + t a) := by
  ext i j
  rw [Matrix.mul_apply, Fin.sum_univ_four]
  fin_cases i <;> fin_cases j <;>
    simp [scalAff, affineSpec, Matrix.one_apply, Matrix.vecHead,
      Matrix.vecTail]

lemma with_zeros_hstack_smul (γ : ℝ) (t : Fin 3 → ℝ) :
    with_zeros (hstack34 (γ • (1 : Matrix (Fin 3) (Fin 3) ℝ)) t) = scalAff γ t := by
  rw [with_zeros_hstack]
  rfl

lemma cos_tiny_pow_le_one (n : ℕ) : Real.cos tiny ^ n ≤ 1 :=
  pow_le_one₀ cos_tiny_pos.le (Real.cos_le_one tiny)

/-- Under the all-zero pose every joint rotation is the scalar matrix
`cos(tiny) • I`, so each accumulated world transform is a scalar-affine
matrix whose scale lies in `[cos(tiny)^24, 1]` and whose translation is
within chain-length-many clamp errors of the joint's rest position. -/
lemma Gmat_zero_invariant {V K : ℕ} (rig : Rig V K) (J : Fin 24 → Fin 3 → ℝ)
    (B : ℝ) (hB : 0 ≤ B) (hJB : ∀ i a, |J i a| ≤ B) (i : Fin 24) :
    ∃ γ t, Gmat rig (fun _ => Real.cos tiny • (1 : Matrix (Fin 3) (Fin 3) ℝ)) J i
        = scalAff γ t
      ∧ Real.cos tiny ^ ((i : ℕ) + 1) ≤ γ ∧ γ ≤ 1
      ∧ ∀ a, |t a - J i a|
          ≤ ((i : ℕ) : ℝ) * ((1 - Real.cos tiny ^ 24) * (2 * B)) := by
  have hc0 := cos_tiny_pos
  have hc1 := Real.cos_le_one tiny
  have herr : 0 ≤ (1 - Real.cos tiny ^ 24) * (2 * B) := by
    have := cos_tiny_pow_le_one 24
    nlinarith
  suffices H : ∀ n, ∀ i : Fin 24, (i : ℕ) = n →
      ∃ γ t, Gmat rig (fun _ => Real.cos tiny • (1 : Matrix (Fin 3) (Fin 3) ℝ)) J i
          = scalAff γ t
        ∧ Real.cos tiny ^ ((i : ℕ) + 1) ≤ γ ∧ γ ≤ 1
        ∧ ∀ a, |t a - J i a|
            ≤ ((i : ℕ) : ℝ) * ((1 - Real.cos tiny ^ 24) * (2 * B)) by
    exact H (i : ℕ) i rfl
  intro n
  induction n using Nat.strong_induction_on with
  | _ n ih =>
    intro i hi
    by_cases h0 : i = 0
    · subst h0
      refine ⟨Real.cos tiny, J 0, ?_, ?_, hc1, ?_⟩
      · rw [Gmat, dif_pos rfl, with_zeros_hstack_smul]
      · rw [show (((0 : Fin 24) : ℕ) + 1) = 1 from rfl, pow_one]
      · intro a
        simp
    · have hp := rig.parent_lt i h0
      have hplt : ((rig.parent i : ℕ)) < n := by
        rw [← hi]
        exact hp
      obtain ⟨γ, t, hG, hγl, hγu, ht⟩ := ih ((rig.parent i : ℕ)) hplt (rig.parent i) rfl
      have hpv : ((rig.parent i : ℕ)) + 1 ≤ (i : ℕ) := hp
      have hγ24 : Real.cos tiny ^ 24 ≤ γ :=
        le_trans (pow_le_pow_of_le_one hc0.le hc1 (by omega)) hγl
      refine ⟨γ * Real.cos tiny,
        fun a => γ * (J i a - J (rig.parent i) a) + t a, ?_, ?_, ?_, ?_⟩
      · conv_lhs => rw [Gmat]
        rw [dif_neg h0, hG]
        simp only [with_zeros_hstack_smul]
        rw [scalAff_mul]
      · calc Real.cos tiny ^ ((i : ℕ) + 1)
            ≤ Real.cos tiny ^ (((rig.parent i : ℕ)) + 1 + 1) :=
              pow_le_pow_of_le_one hc0.le hc1 (by omega)
          _ = Real.cos tiny ^ (((rig.parent i : ℕ)) + 1) * Real.cos tiny := by
              rw [pow_succ]
          _ ≤ γ * Real.cos tiny := mul_le_mul_of_nonneg_right hγl hc0.le
      · exact mul_le_one₀ hγu hc0.le hc1
      · intro a
        have e : γ * (J i a - J (rig.parent i) a) + t a - J i a
            = (γ - 1) * (J i a - J (rig.parent i) a)
              + (t a - J (rig.parent i) a) := by ring
        rw [e]
        have hd : |J i a - J (rig.parent i) a| ≤ 2 * B := by
          calc |J i a - J (rig.parent i) a| ≤ |J i a| + |J (rig.parent i) a| :=
                abs_sub _ _
            _ ≤ 2 * B := by linarith [hJB i a, hJB (rig.parent i) a]
        have hγd : |γ - 1| ≤ 1 - Real.cos tiny ^ 24 := by
          rw [abs_le]
          constructor <;> [linarith; linarith [cos_tiny_pow_le_one 24]]
        have h1 : |(γ - 1) * (J i a - J (rig.parent i) a)|
            ≤ (1 - Real.cos tiny ^ 24) * (2 * B) := by
          rw [abs_mul]
          exact mul_le_mul hγd hd (abs_nonneg _)
            (by linarith [cos_tiny_pow_le_one 24])
        have h2 := ht a
        have hcast : ((rig.parent i : ℕ) : ℝ) + 1 ≤ ((i : ℕ) : ℝ) := by
          exact_mod_cast hpv
        calc |(γ - 1) * (J i a - J (rig.parent i) a)
              + (t a - J (rig.parent i) a)|
            ≤ |(γ - 1) * (J i a - J (rig.parent i) a)|
              + |t a - J (rig.parent i) a| := abs_add _ _
          _ ≤ (((rig.parent i : ℕ) : ℝ) + 1)
              * ((1 - Real.cos tiny ^ 24) * (2 * B)) := by linarith
          _ ≤ ((i : ℕ) : ℝ) * ((1 - Real.cos tiny ^ 24) * (2 * B)) :=
              mul_le_mul_of_nonneg_right hcast herr

lemma Gfin_scalAff {V K : ℕ} (rig : Rig V K) (J : Fin 24 → Fin 3 → ℝ)
    (i : Fin 24) (γ : ℝ) (t : Fin 3 → ℝ)
    (h : Gmat rig (fun _ => Real.cos tiny • (1 : Matrix (Fin 3) (Fin 3) ℝ)) J i
        = scalAff γ t) :
    Gfin rig (fun _ => Real.cos tiny • (1 : Matrix (Fin 3) (Fin 3) ℝ)) J i
      = scalAff γ (fun a => t a - γ * J i a) := by
  rw [Gfin, h]
  ext i' j
  fin_cases i' <;> fin_cases j <;>
    simp [scalAff, affineSpec, pack, jhom, Matrix.mulVec, dotProduct,
      Fin.sum_univ_four, Matrix.vecHead, Matrix.vecTail]

lemma scalAff_mulVec (γ : ℝ) (τ : Fin 3 → ℝ) (p : Fin 3 → ℝ) (a : Fin 3) :
    (scalAff γ τ).mulVec (rest_shape_h p) a.castSucc = γ * p a + τ a := by
  fin_cases a
  · rw [show ((⟨0, by norm_num⟩ : Fin 3).castSucc) = (0 : Fin 4) from rfl]
    simp [scalAff, affineSpec, rest_shape_h, Matrix.mulVec, dotProduct,
      Fin.sum_univ_four]
  · rw [show ((⟨1, by norm_num⟩ : Fin 3).castSucc) = (1 : Fin 4) from rfl]
    simp [scalAff, affineSpec, rest_shape_h, Matrix.mulVec, dotProduct,
      Fin.sum_univ_four]
  · rw [show ((⟨2, by norm_num⟩ : Fin 3).castSucc) = (2 : Fin 4) from rfl]
    simp [scalAff, affineSpec, rest_shape_h, Matrix.mulVec, dotProduct,
      Fin.sum_univ_four, Matrix.vecHead, Matrix.vecTail]

lemma cos_tiny_pow24_lb : 1 - Real.cos tiny ^ 24 ≤ 24 * (1 - Real.cos tiny) := by
  have h := one_add_mul_le_pow (a := Real.cos tiny - 1)
    (by linarith [cos_tiny_pos]) 24
  have e : 1 + (24 : ℕ) * (Real.cos tiny - 1) = 1 - 24 * (1 - Real.cos tiny) := by
    push_cast
    ring
  rw [e] at h
  have e2 : (1 + (Real.cos tiny - 1)) = Real.cos tiny := by ring
  rw [e2] at h
  linarith

lemma big_tiny_sq_le_tol : 576 * tiny ^ 2 ≤ tol := by
  rw [tiny, tol]
  norm_num

lemma weighted_sum_close (w : Fin 24 → ℝ) (x : Fin 24 → ℝ) (p M : ℝ)
    (hw1 : ∑ j, w j = 1) (hw0 : ∀ j, 0 ≤ w j)
    (hx : ∀ j, |x j - p| ≤ M) : |(∑ j, w j * x j) - p| ≤ M := by
  have e : (∑ j, w j * x j) - p = ∑ j, w j * (x j - p) := by
    have : ∑ j, w j * (x j - p) = (∑ j, w j * x j) - (∑ j, w j) * p := by
      rw [Finset.sum_mul, ← Finset.sum_sub_distrib]
      exact Finset.sum_congr rfl fun j _ => by ring
    rw [this, hw1, one_mul]
  rw [e]
  calc |∑ j, w j * (x j - p)| ≤ ∑ j, |w j * (x j - p)| :=
        Finset.abs_sum_le_sum_abs _ _
    _ ≤ ∑ j, w j * M := Finset.sum_le_sum fun j _ => by
        rw [abs_mul, abs_of_nonneg (hw0 j)]
        exact mul_le_mul_of_nonneg_left (hx j) (hw0 j)
    _ = (∑ j, w j) * M := by rw [Finset.sum_mul]
    _ = M := by rw [hw1, one_mul]

/-- **C1** (amended).  For the all-zero pose state held right after
construction, the output vertices agree with the template vertices up to a
per-coordinate error of at most `B * tol` (for skinning weights that are
nonnegative and sum to 1, and template coordinates bounded by `B`); the
agreement is not exact because the epsilon clamp turns every zero-pose
joint rotation into `cos(tiny) • I` instead of the identity. -/
theorem updateVerts_zero_near_template {V K : ℕ} (rig : Rig V K) (B : ℝ)
    (hB : 0 ≤ B)
    (hw1 : ∀ v, ∑ j : Fin 24, rig.weights v j = 1)
    (hw0 : ∀ v j, 0 ≤ rig.weights v j)
    (htB : ∀ v a, |rig.v_template v a| ≤ B) (v : Fin V) (a : Fin 3) :
    |updateVerts rig (fun _ _ => 0) (fun _ => 0) (fun _ => 0) v a
      - rig.v_template v a| ≤ B * tol := by
  have hc0 := cos_tiny_pos
  have hc1 := Real.cos_le_one tiny
  have hc24 := cos_tiny_pow_le_one 24
  have hJB : ∀ (i : Fin 24) (b : Fin 3),
      |joints_list rig rig.v_template i b| ≤ B :=
    fun i b => joints_list_abs_le rig _ B hB htB i b
  have herr : (0 : ℝ) ≤ 24 * ((1 - Real.cos tiny ^ 24) * (2 * B)) := by
    nlinarith
  rw [updateVerts, Tmat]
  simp only [rodrigues_zero_pose, v_shaped_zero]
  rw [sum_smul_mulVec]
  rw [add_zero]
  have key : ∀ j : Fin 24,
      |(Gfin rig (fun _ => Real.cos tiny • (1 : Matrix (Fin 3) (Fin 3) ℝ))
            (joints_list rig rig.v_template) j).mulVec
          (rest_shape_h (rig.v_template v)) a.castSucc
        - rig.v_template v a|
      ≤ 24 * ((1 - Real.cos tiny ^ 24) * (2 * B)) := by
    intro j
    obtain ⟨γ, t, hG, hγl, hγu, ht⟩ :=
      Gmat_zero_invariant rig (joints_list rig rig.v_template) B hB hJB j
    rw [Gfin_scalAff rig _ j γ t hG, scalAff_mulVec]
    have hj := j.isLt
    have hγ24 : Real.cos tiny ^ 24 ≤ γ :=
      le_trans (pow_le_pow_of_le_one hc0.le hc1 (by omega)) hγl
    have e : γ * rig.v_template v a
          + (t a - γ * joints_list rig rig.v_template j a)
          - rig.v_template v a
        = (γ - 1) * (rig.v_template v a - joints_list rig rig.v_template j a)
          + (t a - joints_list rig rig.v_template j a) := by ring
    rw [e]
    have hd : |rig.v_template v a - joints_list rig rig.v_template j a|
        ≤ 2 * B := by
      calc |rig.v_template v a - joints_list rig rig.v_template j a|
          ≤ |rig.v_template v a| + |joints_list rig rig.v_template j a| :=
            abs_sub _ _
        _ ≤ 2 * B := by linarith [htB v a, hJB j a]
    have hγd : |γ - 1| ≤ 1 - Real.cos tiny ^ 24 := by
      rw [abs_le]
      constructor <;> [linarith; linarith]
    have h1 : |(γ - 1)
          * (rig.v_template v a - joints_list rig rig.v_template j a)|
        ≤ (1 - Real.cos tiny ^ 24) * (2 * B) := by
      rw [abs_mul]
      exact mul_le_mul hγd hd (abs_nonneg _) (by linarith)
    have h2 : |t a - joints_list rig rig.v_template j a|
        ≤ 23 * ((1 - Real.cos tiny ^ 24) * (2 * B)) := by
      refine (ht a).trans ?_
      have hcast : ((j : ℕ) : ℝ) ≤ 23 := by
        exact_mod_cast Nat.lt_succ_iff.mp hj
      nlinarith
    calc |(γ - 1) * (rig.v_template v a - joints_list rig rig.v_template j a)
          + (t a - joints_list rig rig.v_template j a)|
        ≤ |(γ - 1) * (rig.v_template v a - joints_list rig rig.v_template j a)|
          + |t a - joints_list rig rig.v_template j a| := abs_add _ _
      _ ≤ 24 * ((1 - Real.cos tiny ^ 24) * (2 * B)) := by linarith
  refine le_trans (weighted_sum_close (rig.weights v) _ _ _ (hw1 v)
    (fun j => hw0 v j) key) ?_
  have hstep : 1 - Real.cos tiny ^ 24 ≤ 12 * tiny ^ 2 := by
    linarith [cos_tiny_pow24_lb, one_sub_cos_tiny_le]
  calc 24 * ((1 - Real.cos tiny ^ 24) * (2 * B))
      = 48 * (1 - Real.cos tiny ^ 24) * B := by ring
    _ ≤ 48 * (12 * tiny ^ 2) * B := by
        apply mul_le_mul_of_nonneg_right _ hB
        linarith
    _ = B * (576 * tiny ^ 2) := by ring
    _ ≤ B * tol := mul_le_mul_of_nonneg_left big_tiny_sq_le_tol hB

/-- **C1** counterexample.  On the concrete rig `exRig`, in exact real
arithmetic the all-zero pose state does *not* reproduce the template
vertex exactly: the single vertex `(1, 0, 0)` is mapped to
`(cos(tiny), 0, 0)` because of the epsilon clamp in `rodrigues`. -/
theorem updateVerts_zero_ne_template :
    updateVerts exRig (fun _ _ => 0) (fun _ => 0) (fun _ => 0) 0 0
      ≠ exRig.v_template 0 0 := by
  have hJ : joints_list exRig exRig.v_template = fun _ _ => 0 := by
    funext i b
    simp [joints_list, exRig]
  have hG : Gmat exRig (fun _ => Real.cos tiny • (1 : Matrix (Fin 3) (Fin 3) ℝ))
      (fun _ _ => 0) 0 = scalAff (Real.cos tiny) (fun _ => 0) := by
    rw [Gmat, dif_pos rfl, with_zeros_hstack_smul]
  have hGf := Gfin_scalAff exRig (fun _ _ => 0) 0 (Real.cos tiny)
    (fun _ => 0) hG
  have hv : updateVerts exRig (fun _ _ => 0) (fun _ => 0) (fun _ => 0) 0 0
      = Real.cos tiny := by
    rw [updateVerts, Tmat]
    simp only [rodrigues_zero_pose, v_shaped_zero]
    rw [sum_smul_mulVec, hJ]
    rw [Finset.sum_eq_single 0
      (fun j _ hj => by simp [exRig, hj])
      (fun h => absurd (Finset.mem_univ _) h)]
    rw [hGf, scalAff_mulVec]
    simp [exRig]
  rw [hv]
  rw [show exRig.v_template 0 0 = 1 from rfl]
  exact ne_of_lt cos_tiny_lt_one

/-- Witness for `updateVerts_zero_near_template`: the bound evaluated on
the concrete rig `exRig` with `B = 1`. -/
theorem updateVerts_zero_near_template_witness :
    ((0 : ℝ) ≤ 1)
    ∧ (∀ v : Fin 1, ∑ j : Fin 24, exRig.weights v j = 1)
    ∧ (∀ (v : Fin 1) (j : Fin 24), 0 ≤ exRig.weights v j)
    ∧ (∀ (v : Fin 1) (a : Fin 3), |exRig.v_template v a| ≤ 1)
    ∧ |updateVerts exRig (fun _ _ => 0) (fun _ => 0) (fun _ => 0) 0 0
        - exRig.v_template 0 0| ≤ 1 * tol := by
  have hw1 : ∀ v : Fin 1, ∑ j : Fin 24, exRig.weights v j = 1 := by
    intro v
    simp [exRig, Finset.sum_ite_eq']
  have hw0 : ∀ (v : Fin 1) (j : Fin 24), 0 ≤ exRig.weights v j := by
    intro v j
    simp only [exRig]
    split <;> norm_num
  have htB : ∀ (v : Fin 1) (a : Fin 3), |exRig.v_template v a| ≤ 1 := by
    intro v a
    fin_cases a <;> simp [exRig]
  exact ⟨by norm_num, hw1, hw0, htB,
    updateVerts_zero_near_template exRig 1 (by norm_num) hw1 hw0 htB 0 0⟩

/-! ### Ill-dimensioned parameters -/

/-- **C7** counterexample.  A shape-coefficient vector of wrong
dimensionality makes the `update` triggered by `set_params` fail, but the
previously set parameter state does *not* remain unchanged: the source
assigns `self.beta = beta` before calling `self.update()`, so the
ill-dimensioned vector is already stored when the failure occurs. -/
theorem set_paramsL_counterexample :
    (set_paramsL 2 ⟨[1, 1], [0, 0, 0]⟩ (some [5]) none).2
        = Except.error "beta dimensionality"
    ∧ (set_paramsL 2 ⟨[1, 1], [0, 0, 0]⟩ (some [5]) none).1.betaL ≠ [1, 1] := by
  constructor
  · rfl
  · simp [set_paramsL]

/-- **C7** (amended).  A shape-coefficient or translation vector of wrong
dimensionality causes the `update` call to fail (with a numpy shape error —
the source has no `PoseShapeError` class); the rig is untouched, but the
stored parameters have already been overwritten with the ill-dimensioned
input before the failure.  A retry with corrected input nevertheless
succeeds, because it overwrites the stored parameters again. -/
theorem set_paramsL_wrong_dim (K : ℕ) (st : StateL) :
    (∀ b : List ℝ, b.length ≠ K →
        (set_paramsL K st (some b) none).2
            = Except.error "beta dimensionality"
        ∧ (set_paramsL K st (some b) none).1.betaL = b
        ∧ (set_paramsL K st (some b) none).1.transL = st.transL)
    ∧ (∀ t : List ℝ, st.betaL.length = K → t.length ≠ 3 →
        (set_paramsL K st none (some t)).2
            = Except.error "trans dimensionality"
        ∧ (set_paramsL K st none (some t)).1.transL = t
        ∧ (set_paramsL K st none (some t)).1.betaL = st.betaL)
    ∧ (∀ (st' : StateL) (b2 t2 : List ℝ), b2.length = K → t2.length = 3 →
        (set_paramsL K st' (some b2) (some t2)).2 = Except.ok ()
        ∧ (set_paramsL K st' (some b2) (some t2)).1.betaL = b2
        ∧ (set_paramsL K st' (some b2) (some t2)).1.transL = t2) := by
  refine ⟨?_, ?_, ?_⟩
  · intro b hb
    refine ⟨?_, rfl, rfl⟩
    simp [set_paramsL, updateCheckL, hb]
  · intro t hbK ht
    refine ⟨?_, rfl, rfl⟩
    simp [set_paramsL, updateCheckL, hbK, ht]
  · intro st' b2 t2 hb2 ht2
    refine ⟨?_, rfl, rfl⟩
    simp [set_paramsL, updateCheckL, hb2, ht2]

/-- Witness for `set_paramsL_wrong_dim`: against a rig with 2 shape
coefficients and a well-formed state, a length-1 beta fails after being
stored, a length-2 translation fails after being stored, and a corrected
retry from the corrupted state succeeds. -/
theorem set_paramsL_wrong_dim_witness :
    (([5] : List ℝ).length ≠ 2)
    ∧ ((set_paramsL 2 ⟨[1, 1], [0, 0, 0]⟩ (some [5]) none).2
          = Except.error "beta dimensionality"
       ∧ (set_paramsL 2 ⟨[1, 1], [0, 0, 0]⟩ (some [5]) none).1.betaL = [5])
    ∧ ((⟨[1, 1], [0, 0, 0]⟩ : StateL).betaL.length = 2)
    ∧ (([9, 9] : List ℝ).length ≠ 3)
    ∧ ((set_paramsL 2 ⟨[1, 1], [0, 0, 0]⟩ none (some [9, 9])).2
          = Except.error "trans dimensionality"
       ∧ (set_paramsL 2 ⟨[1, 1], [0, 0, 0]⟩ none (some [9, 9])).1.transL
          = [9, 9])
    ∧ (([2, 3] : List ℝ).length = 2)
    ∧ (([0, 0, 0] : List ℝ).length = 3)
    ∧ (set_paramsL 2 (set_paramsL 2 ⟨[1, 1], [0, 0, 0]⟩ (some [5]) none).1
        (some [2, 3]) (some [0, 0, 0])).2 = Except.ok () := by
  have T := set_paramsL_wrong_dim 2 ⟨[1, 1], [0, 0, 0]⟩
  have h1 := T.1 [5] (by simp)
  have h2 := T.2.1 [9, 9] (by simp) (by simp)
  have h3 := T.2.2 (set_paramsL 2 ⟨[1, 1], [0, 0, 0]⟩ (some [5]) none).1
    [2, 3] [0, 0, 0] (by simp) (by simp)
  exact ⟨by simp, ⟨h1.1, h1.2.1⟩, by simp, by simp, ⟨h2.1, h2.2.1⟩,
    by simp, by simp, h3.1⟩

end RaBit
